import Mathlib

/-!
# Font Overlay Comparator — verification of the specification against the source

Shallow embedding of `src/FontOverlayComparator.tsx`.  JavaScript numbers are
modelled as exact rationals (`ℚ`); the browser platform (canvas 2D context,
`FontFace` registration, `Date.now`, `Math.random`) is modelled as an explicit
environment of oracles (`Platform`).  Stateful React code is modelled as pure
state-transition functions on an `AppState` record; canvas drawing is modelled
as a trace of render operations.
-/

namespace FontOverlay

/-- `type SlotLabel = "A" | "B"` -/
inductive SlotLabel
| A
| B
deriving DecidableEq, Repr

/-- `type OverlayMode = "red-cyan" | "difference"` -/
inductive OverlayMode
| redCyan
| difference
deriving DecidableEq, Repr

/-- `type GridPreset = "basic-latin" | "caps" | "lower" | "digits" | "punct" | "custom"` -/
inductive GridPreset
| basicLatin
| caps
| lower
| digits
| punct
| custom
deriving DecidableEq, Repr

/-- `interface LoadedFont { name; displayName; face }` — the `face` handle is an
opaque platform object, referenced only by `name`, so it is not carried here. -/
structure LoadedFont where
  name : String
  displayName : String
deriving DecidableEq, Repr

/-- `interface Msg { id : number; msg : string }` -/
structure Msg where
  id : ℚ
  msg : String
deriving DecidableEq, Repr

/-- A dropped/picked file: the code only ever inspects `file.name`; the raw
bytes are opaque to the component (handed to the platform decoder), modelled by
an abstract `blob` tag that the platform's decode oracle can inspect. -/
structure FFile where
  name : String
  blob : Nat
deriving DecidableEq, Repr

/-- The browser platform, as an oracle environment:
`measureText name size content` is `ctx.measureText(content).width` after
`ctx.font = size px name`; `decode` is whether `new FontFace(...).load()`
succeeds on a file; `now i` is the value of `Date.now()` at the `i`-th call
inside one handler; `newId i` is `Date.now() + Math.random()` at the `i`-th
message push; `errText` is the platform error message on a failed decode;
`dpr` is `window.devicePixelRatio`. -/
structure Platform where
  measureText : String → ℚ → String → ℚ
  decode : FFile → Bool
  now : Nat → Nat
  newId : Nat → ℚ
  errText : FFile → String
  dpr : ℚ

/-- React component state (the fields of `FontOverlayComparator` relevant to
the verified claims; `useRef` counter included). -/
structure AppState where
  fontA : Option LoadedFont
  fontB : Option LoadedFont
  text : String
  fontSize : ℚ
  letterSpacing : ℚ
  dx : ℚ
  dy : ℚ
  overlayMode : OverlayMode
  showChecker : Bool
  stroke : Bool
  strokeWidth : ℚ
  gridOpen : Bool
  isDragging : Bool
  dragCounter : Int
  gridCharsPreset : GridPreset
  customChars : String
  messages : List Msg
deriving DecidableEq, Repr

/-- `pushMessage`: `setMessages(arr => [{id, msg}, ...arr].slice(0, 5))`. -/
def pushMessage (id : ℚ) (msg : String) (arr : List Msg) : List Msg :=
  (Msg.mk id msg :: arr).take 5

/-- `measureString(ctx, fontName, content, _letterSpacing)` with
`ctx.font = fontSize px fontName` already applied via the environment.
If the spacing is falsy (`0`), the whole string goes to the platform
measurement; otherwise the per-character loop
`w += ctx.measureText(ch).width + _letterSpacing` is accumulated. -/
def measureString (env : Platform) (fontSize : ℚ) (fontName : String)
    (content : String) (sp : ℚ) : ℚ :=
  if sp = 0 then env.measureText fontName fontSize content
  else content.data.foldl
    (fun w ch => w + (env.measureText fontName fontSize (String.singleton ch) + sp)) 0

/-- `{ wA : number; wB : number; diff : number }`, the record built by the
`metrics` memo. -/
structure MetricsRec where
  wA : ℚ
  wB : ℚ
  diff : ℚ
deriving DecidableEq, Repr

/-- The `metrics` memo: `null` unless both fonts are loaded, otherwise both
widths measured on a scratch context and `diff = wB - wA`.  (The scratch 2D
context is assumed available; its absence is a platform failure outside the
model.)  Recomputed from `fontA, fontB, text, letterSpacing, fontSize`. -/
def metricsOf (env : Platform) (st : AppState) : Option MetricsRec :=
  match st.fontA, st.fontB with
  | some fa, some fb =>
    let wA := measureString env st.fontSize fa.name st.text st.letterSpacing
    let wB := measureString env st.fontSize fb.name st.text st.letterSpacing
    some ⟨wA, wB, wB - wA⟩
  | _, _ => none

/-- One canvas drawing/measuring action, abstracting the 2D context calls the
component performs (coordinates and the checker tile size are omitted from the
trace; they play no role in any claim). -/
inductive RenderOp
| clear
| checker
| placeholder (text : String)
| measure (font : String) (text : String)
| glyphFill (font : String) (text : String) (color : String)
| glyphStroke (font : String) (text : String) (color : String)
| composite (mode : String)
| baseline
| label (text : String)
deriving DecidableEq, Repr

/-- `humanDevicePixelRatio()`: `Math.min(2, Math.max(1, dpr))` with the
platform's reported density (`window.devicePixelRatio || 1` is falsy-guarded;
the guard only matters at density `0`, folded into the oracle). -/
def clampDpr (env : Platform) : ℚ :=
  min 2 (max 1 env.dpr)

/-- `drawString`: whole-run fill (plus optional stroke) when the letter
spacing is falsy, otherwise the per-character loop that strokes/fills each
character and advances by its measured width plus the spacing (the trailing
`measureText` call of each iteration is recorded in the trace). -/
def drawString (env : Platform) (fontSize : ℚ) (fontName : String)
    (content : String) (color : String) (sp : ℚ) (stroke : Bool) : List RenderOp :=
  if sp = 0 then
    (if stroke then [RenderOp.glyphStroke fontName content color] else []) ++
      [RenderOp.glyphFill fontName content color]
  else
    content.data.flatMap (fun ch =>
      (if stroke then [RenderOp.glyphStroke fontName (String.singleton ch) color] else []) ++
        [RenderOp.glyphFill fontName (String.singleton ch) color,
         RenderOp.measure fontName (String.singleton ch)])

/-- The sized surface plus the trace of drawing operations produced by one
`drawCanvas` run. `width`/`height` are the logical (CSS-pixel) dimensions
assigned to the canvas style. -/
structure CanvasResult where
  width : ℚ
  height : ℚ
  ops : List RenderOp
deriving DecidableEq, Repr

/-- The fixed instructional placeholder drawn when a slot is empty. -/
def placeholderText : String := "Загрузите два шрифта, чтобы начать сравнение."

/-- The overlay-mode-dependent glyph passes of `drawCanvas` (difference mode
draws white/white around a composite switch; red-cyan draws two
semi-transparent passes). -/
def overlayOps (env : Platform) (st : AppState) (fa fb : LoadedFont) : List RenderOp :=
  match st.overlayMode with
  | OverlayMode.difference =>
    drawString env st.fontSize fa.name st.text "#ffffff" st.letterSpacing st.stroke ++
      [RenderOp.composite "difference"] ++
      drawString env st.fontSize fb.name st.text "#ffffff" st.letterSpacing st.stroke ++
      [RenderOp.composite "source-over"]
  | OverlayMode.redCyan =>
    drawString env st.fontSize fa.name st.text "rgba(255,0,0,0.85)" st.letterSpacing st.stroke ++
      drawString env st.fontSize fb.name st.text "rgba(0,255,255,0.85)" st.letterSpacing st.stroke

/-- `drawCanvas()`: provisional 800-wide clear+checker pass; if either slot is
empty, only the placeholder string is drawn and the function returns.
Otherwise both strings are measured on a scratch context, the surface is
resized to `max(320, ceil(max(wA, wB) + 2*pad))` by
`max(120, ceil(fontSize*1.8 + 2*pad))` with `pad = 32`, the background pass is
repeated, and the overlay passes, guide baseline and the two display-name
labels are drawn. -/
def drawCanvas (env : Platform) (st : AppState) : CanvasResult :=
  let pad : ℚ := 32
  let base : List RenderOp :=
    [RenderOp.clear] ++ (if st.showChecker then [RenderOp.checker] else [])
  match st.fontA, st.fontB with
  | some fa, some fb =>
    let wA := measureString env st.fontSize fa.name st.text st.letterSpacing
    let wB := measureString env st.fontSize fb.name st.text st.letterSpacing
    let w : ℚ := max 320 ((⌈max wA wB + pad * 2⌉ : ℤ) : ℚ)
    let h : ℚ := max 120 ((⌈st.fontSize * (9 / 5) + pad * 2⌉ : ℤ) : ℚ)
    { width := w
      height := h
      ops := base ++
        [RenderOp.measure fa.name st.text, RenderOp.measure fb.name st.text] ++
        (if st.showChecker then [RenderOp.checker] else [RenderOp.clear]) ++
        overlayOps env st fa fb ++
        [RenderOp.baseline,
         RenderOp.label ("A: " ++ fa.displayName),
         RenderOp.label ("B: " ++ fb.displayName)] }
  | _, _ =>
    { width := 800
      height := max 200 (st.fontSize * (9 / 5) + pad * 2)
      ops := base ++ [RenderOp.placeholder placeholderText] }

/-- The `gridChars` memo: preset character sets (for `custom`,
`customChars || ""` equals `customChars`). -/
def gridChars (st : AppState) : String :=
  match st.gridCharsPreset with
  | GridPreset.caps => "ABCDEFGHIJKLMNOPQRSTUVWXYZ"
  | GridPreset.lower => "abcdefghijklmnopqrstuvwxyz"
  | GridPreset.digits => "0123456789"
  | GridPreset.punct => ".,;:!?()[]{}-—_"
  | GridPreset.custom => st.customChars
  | GridPreset.basicLatin =>
    "ABCDEFGHIJKLMNOPQRSTUVWXYZabcdefghijklmnopqrstuvwxyz0123456789"

/-- The characters for which a `GlyphCell` is rendered: the grid section is
mounted only while `gridOpen`, and inside it the cell list is replaced by an
instructional message unless both fonts are loaded
(`!fontA || !fontB ? message : cells`). -/
def gridCells (st : AppState) : List Char :=
  if st.gridOpen then
    match st.fontA, st.fontB with
    | some _, some _ => (gridChars st).data
    | _, _ => []
  else []

/-- JavaScript `\w` (word character): `[A-Za-z0-9_]`. -/
def isWordChar (c : Char) : Bool :=
  c.isAlphanum || c = '_'

/-- `name.replace(/\W+/g, "_")` on the character list: every maximal run of
non-word characters is replaced by a single underscore. -/
def sanitizeAux : List Char → List Char
  | [] => []
  | [c] => if isWordChar c then [c] else ['_']
  | c :: d :: rest =>
    if isWordChar c then c :: sanitizeAux (d :: rest)
    else if isWordChar d then '_' :: sanitizeAux (d :: rest)
    else sanitizeAux (d :: rest)

/-- `file.name.replace(/\W+/g, "_")`. -/
def sanitize (s : String) : String :=
  ⟨sanitizeAux s.data⟩

/-- The string form of a slot label. -/
def slotStr : SlotLabel → String
  | SlotLabel.A => "A"
  | SlotLabel.B => "B"

/-- The template literal of `loadFontFromFile`:
`` `${label}_${file.name.replace(/\W+/g, "_")}_${Date.now()}` ``. -/
def uniqueName (label : SlotLabel) (fileName : String) (t : Nat) : String :=
  slotStr label ++ "_" ++ sanitize fileName ++ "_" ++ Nat.repr t

/-- `loadFontFromFile(file, label)` with the platform decode outcome supplied
by the environment (`i` indexes the `Date.now()` / message-id draws inside one
event handler).  On success returns the registered font and leaves the message
log alone; on failure returns nothing and pushes the diagnostic naming the
file and the underlying error text. -/
def loadFontFromFile (env : Platform) (i : Nat) (file : FFile) (label : SlotLabel)
    (msgs : List Msg) : Option LoadedFont × List Msg :=
  if env.decode file then
    (some ⟨uniqueName label file.name (env.now i), file.name⟩, msgs)
  else
    (none, pushMessage (env.newId i)
      ("Не удалось загрузить шрифт " ++ file.name ++ ": " ++ env.errText file) msgs)

/-- `/\.(ttf|otf|woff2?|TTF|OTF|WOFF2?)$/.test(f.name)`. -/
def isFontFile (f : FFile) : Bool :=
  [".ttf", ".otf", ".woff", ".woff2", ".TTF", ".OTF", ".WOFF", ".WOFF2"].any
    (fun ext => ext.data.isSuffixOf f.name.data)

/-- `if (x) setSlot(x)`: the slot keeps its previous value when the load
returned nothing. -/
def updSlot (new old : Option LoadedFont) : Option LoadedFont :=
  match new with
  | some x => some x
  | none => old

/-- The diagnostic for a drop with no recognized font file. -/
def unrecognizedText : String :=
  "Файлы не распознаны как шрифты (.ttf/.otf/.woff/.woff2)"

/-- The diagnostic for a drop while both slots are occupied. -/
def bothBusyText : String :=
  "Оба слота заняты. Сначала очистите один из шрифтов."

/-- `onDrop(e)`: reset the drag counter and highlight, filter the dropped
files by extension, then fill slot A (plus, with a second recognized file, slot
B) when A is empty; else slot B when B is empty; else push the slots-busy
diagnostic.  A failed individual load leaves its target slot unchanged. -/
def onDrop (env : Platform) (st : AppState) (files : List FFile) : AppState :=
  let st1 := { st with dragCounter := 0, isDragging := false }
  match files.filter isFontFile with
  | [] => { st1 with messages := pushMessage (env.newId 0) unrecognizedText st1.messages }
  | f1 :: rest =>
    match st1.fontA with
    | none =>
      let r1 := loadFontFromFile env 0 f1 SlotLabel.A st1.messages
      let st2 := { st1 with fontA := updSlot r1.1 st1.fontA, messages := r1.2 }
      match rest with
      | [] => st2
      | f2 :: _ =>
        let r2 := loadFontFromFile env 1 f2 SlotLabel.B st2.messages
        { st2 with fontB := updSlot r2.1 st2.fontB, messages := r2.2 }
    | some _ =>
      match st1.fontB with
      | none =>
        let r1 := loadFontFromFile env 0 f1 SlotLabel.B st1.messages
        { st1 with fontB := updSlot r1.1 st1.fontB, messages := r1.2 }
      | some _ =>
        { st1 with messages := pushMessage (env.newId 0) bothBusyText st1.messages }

/-- A drag targeting event on the drop zone. -/
inductive DragEv
| enter
| leave
deriving DecidableEq, Repr

/-- The drag-targeting state: the `dragCounter` ref and the `isDragging`
flag. -/
structure DragS where
  counter : Int
  isDragging : Bool
deriving DecidableEq, Repr

/-- `onDragEnter` / `onDragLeave`: enter increments the counter and turns the
highlight on; leave decrements it and turns the highlight off exactly when the
counter dropped to `≤ 0`. -/
def dragStep (s : DragS) : DragEv → DragS
  | DragEv.enter => { counter := s.counter + 1, isDragging := true }
  | DragEv.leave =>
    let c := s.counter - 1
    { counter := c, isDragging := if c ≤ 0 then false else s.isDragging }

/-- The drag state reached from the initial state (`counter = 0`, highlight
off) after a sequence of enter/leave events. -/
def dragRun (evs : List DragEv) : DragS :=
  evs.foldl dragStep ⟨0, false⟩

/-- Number of enter events in a sequence. -/
def countEnter (evs : List DragEv) : Int :=
  ((evs.filter (· = DragEv.enter)).length : Int)

/-- Number of leave events in a sequence. -/
def countLeave (evs : List DragEv) : Int :=
  ((evs.filter (· = DragEv.leave)).length : Int)

/-- Starting from counter value `c`, no prefix of the event sequence drives
the counter negative (leaves never outnumber enters). -/
def balancedFrom (c : Int) : List DragEv → Bool
  | [] => true
  | DragEv.enter :: rest => balancedFrom (c + 1) rest
  | DragEv.leave :: rest => decide (1 ≤ c) && balancedFrom (c - 1) rest

/-- The decimal character list of a natural number (most significant digit
first); a fuel-free restatement of core's `Nat.toDigitsCore` at base 10, used
to reason about `Nat.repr`. -/
def natChars (n : Nat) : List Char :=
  if h : n / 10 = 0 then [Nat.digitChar (n % 10)]
  else natChars (n / 10) ++ [Nat.digitChar (n % 10)]
termination_by n
decreasing_by
  exact Nat.div_lt_self (Nat.pos_of_ne_zero fun h0 => h (by simp [h0])) (by norm_num)

theorem natChars_last (n : Nat) (h : n / 10 = 0) :
    natChars n = [Nat.digitChar (n % 10)] := by
  rw [natChars, dif_pos h]

theorem natChars_step (n : Nat) (h : n / 10 ≠ 0) :
    natChars n = natChars (n / 10) ++ [Nat.digitChar (n % 10)] := by
  rw [natChars, dif_neg h]

theorem toDigitsCore_eq_natChars :
    ∀ (fuel n : Nat) (ds : List Char), n < fuel →
      Nat.toDigitsCore 10 fuel n ds = natChars n ++ ds := by
  intro fuel
  induction fuel with
  | zero => intro n ds h; omega
  | succ fuel ih =>
    intro n ds h
    rw [Nat.toDigitsCore]
    by_cases hz : n / 10 = 0
    · simp only [hz, if_pos]
      rw [natChars_last n hz]
      simp
    · simp only [hz, if_neg, if_false]
      have hlt : n / 10 < fuel := by
        have h1 : n / 10 < n :=
          Nat.div_lt_self (Nat.pos_of_ne_zero fun h0 => hz (by simp [h0])) (by norm_num)
        omega
      rw [ih (n / 10) (Nat.digitChar (n % 10) :: ds) hlt]
      rw [natChars_step n hz]
      simp

theorem natChars_ne_nil (n : Nat) : natChars n ≠ [] := by
  rw [natChars]
  split <;> simp

theorem digitChar_fin_inj : ∀ a b : Fin 10,
    Nat.digitChar a.val = Nat.digitChar b.val → a = b := by decide

theorem digitChar_fin_ne_underscore : ∀ a : Fin 10,
    Nat.digitChar a.val ≠ '_' := by decide

theorem digitChar_inj_of_lt {a b : Nat} (ha : a < 10) (hb : b < 10)
    (h : Nat.digitChar a = Nat.digitChar b) : a = b := by
  have := digitChar_fin_inj ⟨a, ha⟩ ⟨b, hb⟩ h
  exact congrArg Fin.val this

theorem natChars_inj : ∀ m n : Nat, natChars m = natChars n → m = n := by
  intro m
  induction m using Nat.strong_induction_on with
  | _ m ih =>
    intro n h
    have hm10 : m % 10 < 10 := Nat.mod_lt _ (by norm_num)
    have hn10 : n % 10 < 10 := Nat.mod_lt _ (by norm_num)
    have hmdm := Nat.div_add_mod m 10
    have hndm := Nat.div_add_mod n 10
    by_cases hm : m / 10 = 0 <;> by_cases hn : n / 10 = 0
    · rw [natChars_last m hm, natChars_last n hn] at h
      have := digitChar_inj_of_lt hm10 hn10 (List.cons.injEq .. ▸ h).1
      omega
    · rw [natChars_last m hm, natChars_step n hn] at h
      have hlen := congrArg List.length h
      simp at hlen
      exact absurd hlen (natChars_ne_nil (n / 10))
    · rw [natChars_step m hm, natChars_last n hn] at h
      have hlen := congrArg List.length h
      simp at hlen
      exact absurd hlen (natChars_ne_nil (m / 10))
    · rw [natChars_step m hm, natChars_step n hn] at h
      obtain ⟨h1, h2⟩ := List.append_inj' h (by simp)
      have hdiv : m / 10 = n / 10 := by
        have h1lt : m / 10 < m :=
          Nat.div_lt_self (Nat.pos_of_ne_zero fun h0 => hm (by simp [h0])) (by norm_num)
        exact ih (m / 10) h1lt (n / 10) h1
      have hmod : m % 10 = n % 10 :=
        digitChar_inj_of_lt hm10 hn10 (List.cons.injEq .. ▸ h2).1
      omega

theorem natChars_no_underscore : ∀ (n : Nat), ∀ c ∈ natChars n, c ≠ '_' := by
  intro n
  induction n using Nat.strong_induction_on with
  | _ n ih =>
    intro c hc
    have hn10 : n % 10 < 10 := Nat.mod_lt _ (by norm_num)
    by_cases hz : n / 10 = 0
    · rw [natChars_last n hz] at hc
      simp at hc
      exact hc ▸ digitChar_fin_ne_underscore ⟨n % 10, hn10⟩
    · rw [natChars_step n hz] at hc
      rcases List.mem_append.mp hc with hmem | hmem
      · have hlt : n / 10 < n :=
          Nat.div_lt_self (Nat.pos_of_ne_zero fun h0 => hz (by simp [h0])) (by norm_num)
        exact ih (n / 10) hlt c hmem
      · simp at hmem
        exact hmem ▸ digitChar_fin_ne_underscore ⟨n % 10, hn10⟩

theorem repr_data (n : Nat) : (Nat.repr n).data = natChars n := by
  have h0 : (Nat.repr n).data = Nat.toDigitsCore 10 (n + 1) n [] := rfl
  rw [h0, toDigitsCore_eq_natChars (n + 1) n [] (Nat.lt_succ_self n), List.append_nil]

theorem repr_inj {m n : Nat} (h : Nat.repr m = Nat.repr n) : m = n := by
  apply natChars_inj
  rw [← repr_data, ← repr_data, h]

/-- The segment of a character list after its last underscore (the whole list
when it has none). -/
def afterLastUnderscore (l : List Char) : List Char :=
  (l.reverse.takeWhile (fun c => c != '_')).reverse

theorem takeWhile_until_underscore (y z : List Char) (hy : ∀ c ∈ y, c ≠ '_') :
    (y ++ '_' :: z).takeWhile (fun c => c != '_') = y := by
  induction y with
  | nil => simp [List.takeWhile_cons]
  | cons a as ih =>
    have ha : (a != '_') = true := by
      simpa using hy a (List.mem_cons_self a as)
    simp only [List.cons_append, List.takeWhile_cons, ha, if_pos]
    rw [ih fun c hc => hy c (List.mem_cons_of_mem a hc)]

theorem afterLastUnderscore_spec (z d : List Char) (hd : ∀ c ∈ d, c ≠ '_') :
    afterLastUnderscore (z ++ '_' :: d) = d := by
  unfold afterLastUnderscore
  have hrev : (z ++ '_' :: d).reverse = d.reverse ++ '_' :: z.reverse := by
    simp
  rw [hrev, takeWhile_until_underscore d.reverse z.reverse
    (fun c hc => hd c (List.mem_reverse.mp hc)), List.reverse_reverse]

theorem uniqueName_data (label : SlotLabel) (fname : String) (t : Nat) :
    (uniqueName label fname t).data =
      ((slotStr label).data ++ '_' :: (sanitize fname).data) ++ '_' :: natChars t := by
  unfold uniqueName
  simp [String.data_append, repr_data]

theorem uniqueName_inj {l1 l2 : SlotLabel} {f1 f2 : String} {t1 t2 : Nat}
    (h : uniqueName l1 f1 t1 = uniqueName l2 f2 t2) :
    l1 = l2 ∧ sanitize f1 = sanitize f2 ∧ t1 = t2 := by
  have hd := congrArg String.data h
  rw [uniqueName_data, uniqueName_data] at hd
  have ht : natChars t1 = natChars t2 := by
    have e1 := afterLastUnderscore_spec
      ((slotStr l1).data ++ '_' :: (sanitize f1).data) (natChars t1)
      (natChars_no_underscore t1)
    have e2 := afterLastUnderscore_spec
      ((slotStr l2).data ++ '_' :: (sanitize f2).data) (natChars t2)
      (natChars_no_underscore t2)
    rw [← e1, ← e2, hd]
  have ht' : t1 = t2 := natChars_inj t1 t2 ht
  have hz : (slotStr l1).data ++ '_' :: (sanitize f1).data =
      (slotStr l2).data ++ '_' :: (sanitize f2).data := by
    have := List.append_inj' hd (by rw [ht])
    exact this.1
  have hslot : l1 = l2 := by
    cases l1 <;> cases l2 <;> first
      | rfl
      | (exfalso; simp [slotStr] at hz)
  have hsan : sanitize f1 = sanitize f2 := by
    subst hslot
    have := List.append_inj_right hz rfl
    have htail := (List.cons.injEq .. ▸ this).2
    cases hs1 : sanitize f1 with
    | mk d1 =>
      cases hs2 : sanitize f2 with
      | mk d2 =>
        rw [hs1, hs2] at htail
        simp at htail
        rw [htail]
  exact ⟨hslot, hsan, ht'⟩

/-- The list of internal names generated by a session's successful load
operations, each described by its slot label, original file name and
`Date.now()` timestamp. -/
def sessionNames (loads : List (SlotLabel × String × Nat)) : List String :=
  loads.map fun p => uniqueName p.1 p.2.1 p.2.2

/-- Does a render operation touch glyphs, measurement or pixel composition
(as opposed to background, placeholder, guide-line and label painting)? -/
def isCompositionOp : RenderOp → Bool
  | RenderOp.measure _ _ => true
  | RenderOp.glyphFill _ _ _ => true
  | RenderOp.glyphStroke _ _ _ => true
  | RenderOp.composite _ => true
  | _ => false

/-- A platform oracle for concrete witnesses: every character measures 7 wide,
every decode succeeds. -/
def testPlatform : Platform :=
  { measureText := fun _ _ _ => 7
    decode := fun _ => true
    now := fun i => 1000 + i
    newId := fun i => (i : ℚ)
    errText := fun _ => "decode error"
    dpr := 1 }

/-- A loaded test font for slot A. -/
def testFontA : LoadedFont := ⟨"A_alpha_ttf_1000", "alpha.ttf"⟩

/-- A loaded test font for slot B. -/
def testFontB : LoadedFont := ⟨"B_beta_otf_1001", "beta.otf"⟩

/-- A concrete component state with both slots filled. -/
def testState : AppState :=
  { fontA := some testFontA
    fontB := some testFontB
    text := "ab"
    fontSize := 120
    letterSpacing := 0
    dx := 0
    dy := 0
    overlayMode := OverlayMode.redCyan
    showChecker := true
    stroke := false
    strokeWidth := 1
    gridOpen := false
    isDragging := false
    dragCounter := 0
    gridCharsPreset := GridPreset.basicLatin
    customChars := ""
    messages := [] }

/-- `testState` with both slots empty. -/
def emptyState : AppState :=
  { testState with fontA := none, fontB := none }

theorem foldl_add_map {α : Type} (f : α → ℚ) :
    ∀ (l : List α) (a : ℚ), l.foldl (fun w ch => w + f ch) a = a + (l.map f).sum := by
  intro l
  induction l with
  | nil => intro a; simp
  | cons x xs ih => intro a; simp [List.foldl_cons, ih, add_assoc]

/-- C1: for `letterSpacing = k > 0`, `measureString` equals the sum over the
characters of the string of that character's individually measured width plus
`k` — the trailing character included, and no whole-run (kerned) measurement
involved. -/
theorem measureString_spacing_formula (env : Platform) (fontSize : ℚ)
    (fontName : String) (content : String) (k : ℚ) (hk : 0 < k) :
    measureString env fontSize fontName content k =
      (content.data.map
        (fun ch => env.measureText fontName fontSize (String.singleton ch) + k)).sum := by
  unfold measureString
  rw [if_neg (ne_of_gt hk), foldl_add_map, zero_add]

/-- Witness for C1 at `k = 3`, text `"ab"`, all characters 7 wide. -/
theorem measureString_spacing_formula_witness :
    (0:ℚ) < 3 ∧
    measureString testPlatform 120 "A_alpha_ttf_1000" "ab" 3 =
      (("ab" : String).data.map
        (fun ch => testPlatform.measureText "A_alpha_ttf_1000" 120 (String.singleton ch) + 3)).sum :=
  ⟨by norm_num, measureString_spacing_formula testPlatform 120 "A_alpha_ttf_1000" "ab" 3 (by norm_num)⟩

/-- C2: with both fonts loaded, the `metrics` memo is the record of the two
measured widths with `diff = wB - wA` computed by exact subtraction, and its
value is determined by (hence recomputed from) exactly the dependencies
`fontA, fontB, text, letterSpacing, fontSize`. -/
theorem metrics_diff_exact (env : Platform) (st : AppState) (fa fb : LoadedFont)
    (ha : st.fontA = some fa) (hb : st.fontB = some fb) :
    metricsOf env st = some
      { wA := measureString env st.fontSize fa.name st.text st.letterSpacing
        wB := measureString env st.fontSize fb.name st.text st.letterSpacing
        diff := measureString env st.fontSize fb.name st.text st.letterSpacing -
          measureString env st.fontSize fa.name st.text st.letterSpacing } ∧
    (∀ r : MetricsRec, metricsOf env st = some r → r.diff = r.wB - r.wA) ∧
    (∀ st2 : AppState, st2.fontA = st.fontA → st2.fontB = st.fontB →
      st2.text = st.text → st2.letterSpacing = st.letterSpacing →
      st2.fontSize = st.fontSize → metricsOf env st2 = metricsOf env st) := by
  refine ⟨?_, ?_, ?_⟩
  · unfold metricsOf
    rw [ha, hb]
  · intro r hr
    unfold metricsOf at hr
    rw [ha, hb] at hr
    cases hr
    rfl
  · intro st2 h1 h2 h3 h4 h5
    unfold metricsOf
    rw [h1, h2, h3, h4, h5, ha, hb]

/-- Witness for C2 on the concrete two-font test state. -/
theorem metrics_diff_exact_witness :
    testState.fontA = some testFontA ∧ testState.fontB = some testFontB ∧
    metricsOf testPlatform testState = some
      { wA := measureString testPlatform testState.fontSize testFontA.name testState.text testState.letterSpacing
        wB := measureString testPlatform testState.fontSize testFontB.name testState.text testState.letterSpacing
        diff := measureString testPlatform testState.fontSize testFontB.name testState.text testState.letterSpacing -
          measureString testPlatform testState.fontSize testFontA.name testState.text testState.letterSpacing } :=
  ⟨rfl, rfl, (metrics_diff_exact testPlatform testState testFontA testFontB rfl rfl).1⟩

theorem pushMessage_length_le (id : ℚ) (text : String) (arr : List Msg) :
    (pushMessage id text arr).length ≤ 5 := by
  unfold pushMessage
  simpa using List.length_take_le 5 (Msg.mk id text :: arr)

theorem pushMessage_fold_le (ps : List (ℚ × String)) :
    ∀ arr : List Msg, arr.length ≤ 5 →
      (ps.foldl (fun acc p => pushMessage p.1 p.2 acc) arr).length ≤ 5 := by
  induction ps with
  | nil => intro arr h; exact h
  | cons p ps ih =>
    intro arr h
    rw [List.foldl_cons]
    exact ih _ (pushMessage_length_le p.1 p.2 arr)

/-- C4: starting from any log of length at most 5, a push keeps the length at
most 5 (and so does any further sequence of pushes), places the new message at
position 0, and on a full log of 5 entries evicts exactly the oldest entry —
the one at position 4. -/
theorem pushMessage_cap (id : ℚ) (text : String) (arr : List Msg)
    (h : arr.length ≤ 5) :
    (pushMessage id text arr).length ≤ 5 ∧
    (pushMessage id text arr).head? = some (Msg.mk id text) ∧
    (arr.length = 5 → pushMessage id text arr = Msg.mk id text :: arr.take 4) ∧
    (∀ ps : List (ℚ × String),
      ((ps.foldl (fun acc p => pushMessage p.1 p.2 acc) (pushMessage id text arr)).length ≤ 5)) := by
  refine ⟨pushMessage_length_le id text arr, ?_, ?_, ?_⟩
  · unfold pushMessage
    rw [List.take_succ_cons]
    rfl
  · intro h5
    unfold pushMessage
    rw [List.take_succ_cons]
  · intro ps
    exact pushMessage_fold_le ps (pushMessage id text arr) (pushMessage_length_le id text arr)

/-- A concrete full log of five messages. -/
def fullLog : List Msg :=
  [⟨1, "m1"⟩, ⟨2, "m2"⟩, ⟨3, "m3"⟩, ⟨4, "m4"⟩, ⟨5, "m5"⟩]

/-- Witness for C4 on a full log of five entries. -/
theorem pushMessage_cap_witness :
    fullLog.length ≤ 5 ∧
    (pushMessage 6 "m6" fullLog).length ≤ 5 ∧
    (pushMessage 6 "m6" fullLog).head? = some (Msg.mk 6 "m6") ∧
    (fullLog.length = 5 → pushMessage 6 "m6" fullLog = Msg.mk 6 "m6" :: fullLog.take 4) := by
  have h := pushMessage_cap 6 "m6" fullLog (by decide)
  exact ⟨by decide, h.1, h.2.1, h.2.2.1⟩

/-- C5: whenever a slot is empty, `drawCanvas` draws only the background pass
and the fixed placeholder string — no measurement, glyph drawing or pixel
composition occurs — and the glyph grid renders zero cells, whatever the
character-set selection. -/
theorem drawCanvas_placeholder (env : Platform) (st : AppState)
    (h : st.fontA = none ∨ st.fontB = none) :
    (drawCanvas env st).ops =
      [RenderOp.clear] ++ (if st.showChecker then [RenderOp.checker] else []) ++
        [RenderOp.placeholder placeholderText] ∧
    (∀ op ∈ (drawCanvas env st).ops, isCompositionOp op = false) ∧
    gridCells st = [] := by
  have hops : (drawCanvas env st).ops =
      [RenderOp.clear] ++ (if st.showChecker then [RenderOp.checker] else []) ++
        [RenderOp.placeholder placeholderText] ∧ gridCells st = [] := by
    rcases h with h | h
    · cases hB : st.fontB <;> simp [drawCanvas, gridCells, h, hB]
    · cases hA : st.fontA <;> simp [drawCanvas, gridCells, h, hA]
  refine ⟨hops.1, ?_, hops.2⟩
  intro op hop
  rw [hops.1] at hop
  by_cases hc : st.showChecker
  · simp [hc] at hop
    rcases hop with rfl | rfl | rfl <;> rfl
  · simp [hc] at hop
    rcases hop with rfl | rfl <;> rfl

/-- Witness for C5 on the empty-slot state. -/
theorem drawCanvas_placeholder_witness :
    (emptyState.fontA = none ∨ emptyState.fontB = none) ∧
    (drawCanvas testPlatform emptyState).ops =
      [RenderOp.clear] ++ (if emptyState.showChecker then [RenderOp.checker] else []) ++
        [RenderOp.placeholder placeholderText] ∧
    gridCells emptyState = [] := by
  have h := drawCanvas_placeholder testPlatform emptyState (Or.inl rfl)
  exact ⟨Or.inl rfl, h.1, h.2.2⟩

/-- C6 (amended): with both fonts loaded, the main surface's logical width is
`max 320 ⌈max(wA, wB) + 2·32⌉` — the code floors the width at 320 CSS pixels
and rounds it up to an integer, rather than using `max(wA, wB) + 2·32`
directly as the claim states. -/
theorem drawCanvas_width (env : Platform) (st : AppState) (fa fb : LoadedFont)
    (ha : st.fontA = some fa) (hb : st.fontB = some fb) :
    (drawCanvas env st).width =
      max 320 ((⌈max (measureString env st.fontSize fa.name st.text st.letterSpacing)
        (measureString env st.fontSize fb.name st.text st.letterSpacing) + 2 * 32⌉ : ℤ) : ℚ) := by
  unfold drawCanvas
  rw [ha, hb]
  norm_num [mul_comm]

/-- Witness for C6 on the concrete two-font test state. -/
theorem drawCanvas_width_witness :
    testState.fontA = some testFontA ∧ testState.fontB = some testFontB ∧
    (drawCanvas testPlatform testState).width =
      max 320 ((⌈max (measureString testPlatform testState.fontSize testFontA.name testState.text testState.letterSpacing)
        (measureString testPlatform testState.fontSize testFontB.name testState.text testState.letterSpacing) + 2 * 32⌉ : ℤ) : ℚ) :=
  ⟨rfl, rfl, drawCanvas_width testPlatform testState testFontA testFontB rfl rfl⟩

/-- Counterexample to C6 as stated: with every glyph run measuring 7 wide,
both measured widths are 7, so the claimed width `max(wA, wB) + 2×32 = 71`,
but the code sizes the surface to the 320-pixel floor. -/
theorem drawCanvas_width_cex :
    (drawCanvas testPlatform testState).width = 320 ∧
    measureString testPlatform testState.fontSize testFontA.name testState.text testState.letterSpacing = 7 ∧
    measureString testPlatform testState.fontSize testFontB.name testState.text testState.letterSpacing = 7 ∧
    (drawCanvas testPlatform testState).width ≠
      max (measureString testPlatform testState.fontSize testFontA.name testState.text testState.letterSpacing)
        (measureString testPlatform testState.fontSize testFontB.name testState.text testState.letterSpacing) + 2 * 32 := by
  have hA : measureString testPlatform testState.fontSize testFontA.name
      testState.text testState.letterSpacing = 7 := rfl
  have hB : measureString testPlatform testState.fontSize testFontB.name
      testState.text testState.letterSpacing = 7 := rfl
  have hw : (drawCanvas testPlatform testState).width =
      max 320 ((⌈max (7:ℚ) 7 + (32:ℚ) * 2⌉ : ℤ) : ℚ) := rfl
  refine ⟨?_, hA, hB, ?_⟩
  · rw [hw]; norm_num
  · rw [hw, hA, hB]; norm_num

theorem dragRun_invariant : ∀ (evs : List DragEv) (s : DragS),
    0 ≤ s.counter → (s.isDragging = true ↔ 0 < s.counter) →
    balancedFrom s.counter evs = true →
    0 ≤ (evs.foldl dragStep s).counter ∧
    ((evs.foldl dragStep s).isDragging = true ↔ 0 < (evs.foldl dragStep s).counter) ∧
    (evs.foldl dragStep s).counter = s.counter + countEnter evs - countLeave evs := by
  intro evs
  induction evs with
  | nil =>
    intro s h0 hiff _
    simp [countEnter, countLeave]
    exact ⟨h0, hiff⟩
  | cons e rest ih =>
    intro s h0 hiff hbal
    cases e with
    | enter =>
      have hbal' : balancedFrom (s.counter + 1) rest = true := hbal
      have hstep : dragStep s DragEv.enter = ⟨s.counter + 1, true⟩ := rfl
      rw [List.foldl_cons, hstep]
      have hres := ih ⟨s.counter + 1, true⟩ (by simp; omega) (by simp; omega) hbal'
      refine ⟨hres.1, hres.2.1, ?_⟩
      rw [hres.2.2]
      simp [countEnter, countLeave, List.filter_cons]
      omega
    | leave =>
      have hbal1 : (1 ≤ s.counter) ∧ balancedFrom (s.counter - 1) rest = true := by
        rw [balancedFrom] at hbal
        simpa using hbal
      have hstep : dragStep s DragEv.leave =
          ⟨s.counter - 1, if s.counter - 1 ≤ 0 then false else s.isDragging⟩ := rfl
      rw [List.foldl_cons, hstep]
      have hiff' : (if s.counter - 1 ≤ 0 then false else s.isDragging) = true ↔
          0 < s.counter - 1 := by
        by_cases hle : s.counter - 1 ≤ 0
        · simp [hle]; omega
        · simp [hle]
          rw [hiff]
          omega
      have hres := ih ⟨s.counter - 1, if s.counter - 1 ≤ 0 then false else s.isDragging⟩
        (by simp; omega) hiff' hbal1.2
      refine ⟨hres.1, hres.2.1, ?_⟩
      rw [hres.2.2]
      simp [countEnter, countLeave, List.filter_cons]
      omega

/-- C7 (amended): restricted to event sequences in which no prefix has more
leave than enter events (the counter never goes negative — in particular all
sequences the DOM can deliver, where a leave is always preceded by its enter),
the highlight is active exactly while the counter is positive, and the counter
equals the number of enters minus the number of leaves; so N enters followed
by N leaves leave the highlight inactive, and any excess of enters keeps it
active.  Without that restriction the claim fails (see the counterexample). -/
theorem dragRun_highlight (evs : List DragEv) (h : balancedFrom 0 evs = true) :
    ((dragRun evs).isDragging = true ↔ 0 < (dragRun evs).counter) ∧
    (dragRun evs).counter = countEnter evs - countLeave evs := by
  have hres := dragRun_invariant evs ⟨0, false⟩ (by simp) (by simp) h
  unfold dragRun
  exact ⟨hres.2.1, by rw [hres.2.2]; simp⟩

/-- Witness for C7 (amended) on two enters followed by one leave. -/
theorem dragRun_highlight_witness :
    balancedFrom 0 [DragEv.enter, DragEv.enter, DragEv.leave] = true ∧
    ((dragRun [DragEv.enter, DragEv.enter, DragEv.leave]).isDragging = true ↔
      0 < (dragRun [DragEv.enter, DragEv.enter, DragEv.leave]).counter) ∧
    (dragRun [DragEv.enter, DragEv.enter, DragEv.leave]).counter =
      countEnter [DragEv.enter, DragEv.enter, DragEv.leave] -
        countLeave [DragEv.enter, DragEv.enter, DragEv.leave] :=
  ⟨by decide, dragRun_highlight [DragEv.enter, DragEv.enter, DragEv.leave] (by decide)⟩

/-- Counterexample to C7 as stated: after a leave followed by an enter the
counter is `0` yet the highlight is active, so over arbitrary enter/leave
sequences the highlight is not active exactly while the counter is
positive. -/
theorem dragRun_highlight_cex :
    (dragRun [DragEv.leave, DragEv.enter]).isDragging = true ∧
    ¬(0 < (dragRun [DragEv.leave, DragEv.enter]).counter) := by
  decide

/-- C3: drop-fill policy, assuming the platform decodes the dropped files
successfully (the policy claim presupposes the loads succeed; failed decodes
are the subject of C10).  With slot A empty the first recognized file fills
slot A and a second recognized file in the same drop fills slot B; with A
occupied and B empty the first recognized file fills slot B; with both
occupied neither slot changes and exactly one diagnostic is appended. -/
theorem onDrop_fill_policy (env : Platform) (st : AppState) (files : List FFile)
    (hdec : ∀ f ∈ files.filter isFontFile, env.decode f = true) :
    (st.fontA = none → ∀ f1 rest, files.filter isFontFile = f1 :: rest →
      ((onDrop env st files).fontA =
        some ⟨uniqueName SlotLabel.A f1.name (env.now 0), f1.name⟩ ∧
      ∀ f2 rest2, rest = f2 :: rest2 →
        (onDrop env st files).fontB =
          some ⟨uniqueName SlotLabel.B f2.name (env.now 1), f2.name⟩)) ∧
    (∀ fa, st.fontA = some fa → st.fontB = none →
      ∀ f1 rest, files.filter isFontFile = f1 :: rest →
      ((onDrop env st files).fontB =
        some ⟨uniqueName SlotLabel.B f1.name (env.now 0), f1.name⟩ ∧
      (onDrop env st files).fontA = some fa)) ∧
    (∀ fa fb, st.fontA = some fa → st.fontB = some fb →
      files.filter isFontFile ≠ [] →
      ((onDrop env st files).fontA = some fa ∧
      (onDrop env st files).fontB = some fb ∧
      (onDrop env st files).messages = pushMessage (env.newId 0) bothBusyText st.messages)) := by
  refine ⟨?_, ?_, ?_⟩
  · intro hA f1 rest hff
    have h1 : env.decode f1 = true := hdec f1 (by rw [hff]; exact List.mem_cons_self f1 rest)
    cases rest with
    | nil =>
      refine ⟨?_, ?_⟩
      · simp [onDrop, hff, hA, loadFontFromFile, h1, updSlot]
      · intro f2 rest2 hr
        exact absurd hr (by simp)
    | cons f2 rest2 =>
      have h2 : env.decode f2 = true := hdec f2 (by
        rw [hff]
        exact List.mem_cons_of_mem f1 (List.mem_cons_self f2 rest2))
      refine ⟨?_, ?_⟩
      · simp [onDrop, hff, hA, loadFontFromFile, h1, h2, updSlot]
      · intro f2x rest2x hr
        injection hr with hf2 hr2
        subst hf2
        simp [onDrop, hff, hA, loadFontFromFile, h1, h2, updSlot]
  · intro fa hA hB f1 rest hff
    have h1 : env.decode f1 = true := hdec f1 (by rw [hff]; exact List.mem_cons_self f1 rest)
    constructor
    · simp [onDrop, hff, hA, hB, loadFontFromFile, h1, updSlot]
    · simp [onDrop, hff, hA, hB, loadFontFromFile, h1, updSlot]
  · intro fa fb hA hB hne
    cases hff : files.filter isFontFile with
    | nil => exact absurd hff hne
    | cons f1 rest =>
      refine ⟨?_, ?_, ?_⟩ <;> simp [onDrop, hff, hA, hB]

/-- A recognized dropped font file. -/
def goodTtf : FFile := ⟨"alpha.ttf", 0⟩

/-- A second recognized dropped font file. -/
def goodOtf : FFile := ⟨"beta.otf", 1⟩

/-- A dropped file with an unrecognized extension. -/
def badTxt : FFile := ⟨"notes.txt", 2⟩

/-- Witness for C3: dropping two recognized files on the empty state fills
slot A with the first and slot B with the second. -/
theorem onDrop_fill_policy_witness :
    emptyState.fontA = none ∧
    [goodTtf, goodOtf].filter isFontFile = [goodTtf, goodOtf] ∧
    (onDrop testPlatform emptyState [goodTtf, goodOtf]).fontA =
      some ⟨uniqueName SlotLabel.A goodTtf.name (testPlatform.now 0), goodTtf.name⟩ ∧
    (onDrop testPlatform emptyState [goodTtf, goodOtf]).fontB =
      some ⟨uniqueName SlotLabel.B goodOtf.name (testPlatform.now 1), goodOtf.name⟩ := by
  have h := (onDrop_fill_policy testPlatform emptyState [goodTtf, goodOtf]
    (fun f _ => rfl)).1 rfl goodTtf [goodOtf] (by decide)
  exact ⟨rfl, by decide, h.1, h.2 goodOtf [] rfl⟩

/-- C8 (amended): files with unrecognized extensions are ignored and cause no
change to the font slots — the drop outcome depends only on the recognized
sublist — and the single unrecognized-input diagnostic is appended exactly
when no dropped file is recognized (not per ignored file, as the claim
states). -/
theorem onDrop_ignores_unrecognized (env : Platform) (st : AppState) (files : List FFile) :
    onDrop env st files = onDrop env st (files.filter isFontFile) ∧
    (files.filter isFontFile = [] →
      onDrop env st files =
        { st with
            dragCounter := 0
            isDragging := false
            messages := pushMessage (env.newId 0) unrecognizedText st.messages }) := by
  constructor
  · unfold onDrop
    rw [List.filter_filter]
    simp only [Bool.and_self]
  · intro h
    simp [onDrop, h]

/-- Witness for C8 (amended): a drop with no recognized file appends the
unrecognized-input diagnostic and changes nothing else. -/
theorem onDrop_ignores_unrecognized_witness :
    [badTxt].filter isFontFile = [] ∧
    onDrop testPlatform emptyState [badTxt] =
      { emptyState with
          dragCounter := 0
          isDragging := false
          messages := pushMessage (testPlatform.newId 0) unrecognizedText emptyState.messages } :=
  ⟨by decide, (onDrop_ignores_unrecognized testPlatform emptyState [badTxt]).2 (by decide)⟩

/-- Counterexample to C8 as stated: in a mixed drop (one recognized file, one
unrecognized), the unrecognized file is silently ignored — the message log
stays empty, so it is not true that each unrecognized file produces a
diagnostic message. -/
theorem onDrop_ignores_unrecognized_cex :
    isFontFile badTxt = false ∧
    (onDrop testPlatform emptyState [goodTtf, badTxt]).messages = [] := by
  constructor
  · decide
  · rfl

/-- C10: with slot A empty and two recognized files dropped, a decode failure
of the first file does not stop the second load: slot B ends up occupied by
the second file while slot A remains empty. -/
theorem onDrop_second_after_failure (env : Platform) (st : AppState)
    (files : List FFile) (f1 f2 : FFile) (rest : List FFile)
    (hA : st.fontA = none)
    (hff : files.filter isFontFile = f1 :: f2 :: rest)
    (h1 : env.decode f1 = false)
    (h2 : env.decode f2 = true) :
    (onDrop env st files).fontA = none ∧
    (onDrop env st files).fontB =
      some ⟨uniqueName SlotLabel.B f2.name (env.now 1), f2.name⟩ := by
  constructor <;> simp [onDrop, hff, hA, loadFontFromFile, h1, h2, updSlot]

/-- A platform that rejects the font bytes of `goodTtf` (blob tag 0) and
accepts everything else. -/
def pickyPlatform : Platform :=
  { testPlatform with decode := fun f => f.blob != 0 }

/-- Witness for C10 with a failing first file and a succeeding second file. -/
theorem onDrop_second_after_failure_witness :
    emptyState.fontA = none ∧
    [goodTtf, goodOtf].filter isFontFile = [goodTtf, goodOtf] ∧
    pickyPlatform.decode goodTtf = false ∧
    pickyPlatform.decode goodOtf = true ∧
    (onDrop pickyPlatform emptyState [goodTtf, goodOtf]).fontA = none ∧
    (onDrop pickyPlatform emptyState [goodTtf, goodOtf]).fontB =
      some ⟨uniqueName SlotLabel.B goodOtf.name (pickyPlatform.now 1), goodOtf.name⟩ := by
  have h := onDrop_second_after_failure pickyPlatform emptyState [goodTtf, goodOtf]
    goodTtf goodOtf [] rfl (by decide) (by decide) (by decide)
  exact ⟨rfl, by decide, by decide, by decide, h.1, h.2⟩

/-- Counterexample to C9 as stated: two successful loads into the same slot
with the same file name in the same `Date.now()` millisecond generate the
same internal name — the generated names of a session are not unconditionally
distinct. -/
theorem sessionNames_collision :
    ¬ (sessionNames [(SlotLabel.A, "x.ttf", 1000), (SlotLabel.A, "x.ttf", 1000)]).Nodup := by
  decide

/-- C9 (amended): two successful loads generate distinct `internalName`
strings provided they differ in slot label, sanitized file name, or load
timestamp — i.e. the name injectively encodes that triple; only two loads of
an identically-sanitized file name into the same slot in the same millisecond
collide. -/
theorem uniqueName_distinct (l1 l2 : SlotLabel) (f1 f2 : String) (t1 t2 : Nat)
    (h : ¬(l1 = l2 ∧ sanitize f1 = sanitize f2 ∧ t1 = t2)) :
    uniqueName l1 f1 t1 ≠ uniqueName l2 f2 t2 :=
  fun he => h (uniqueName_inj he)

/-- Witness for C9 (amended): same slot and file name but different
timestamps give different names. -/
theorem uniqueName_distinct_witness :
    ¬(SlotLabel.A = SlotLabel.A ∧ sanitize "x.ttf" = sanitize "x.ttf" ∧ 1000 = 1001) ∧
    uniqueName SlotLabel.A "x.ttf" 1000 ≠ uniqueName SlotLabel.A "x.ttf" 1001 :=
  ⟨by decide, uniqueName_distinct SlotLabel.A SlotLabel.A "x.ttf" "x.ttf" 1000 1001 (by decide)⟩

end FontOverlay
